import Mathlib

/-!
Verification of the simplebroker queue core.

The Go source serializes all per-queue mutation through one worker
goroutine (`queueImpl.dispatch` in `src/queue/queue.go`) that consumes an
ordered stream of three event kinds: a new message from `Put`, a new
waiter registration from `Get`, and a waiter-expiry notification.  We
embed that worker as a pure state machine: the state carries the message
backlog, the waiter list, and the single-slot reply channels of every
waiter that has ever been registered (the buffered `msgCh`/`errCh` of a
`getWaitStatus`, modelled as association lists from waiter id to the
value sitting in the buffer, `none` meaning the buffer is empty).

The registry (`queueManagerImpl` in `src/queue/manager.go`) maps names to
engines; we model it as an association list that additionally records a
creation id per engine, so that "the entry for a name is never replaced"
is expressible.
-/

namespace SimpleBroker

/-- The two error values of `src/queue/errors.go`. -/
inductive QErr where
  | noMessage
  | tooManyItems
  deriving DecidableEq

/-- State owned by the worker goroutine of one `queueImpl`
(`src/queue/queue.go`): `messages` and `getWaitStatuses` are the two
linked lists (front = head of the Lean list, `Push` appends at the back),
`msgSlots`/`errSlots` are the contents of every waiter's buffered
`msgCh`/`errCh` (capacity 1, so an `Option` value per waiter id). -/
structure QueueImpl where
  maxMessageNum : Nat
  messages : List String
  getWaitStatuses : List Nat
  msgSlots : List (Nat × String)
  errSlots : List (Nat × QErr)
  deriving DecidableEq

/-- `newQueueImpl`: fresh queue with empty lists. -/
def newQueueImpl (maxMessageNum : Nat) : QueueImpl :=
  { maxMessageNum := maxMessageNum
    messages := []
    getWaitStatuses := []
    msgSlots := []
    errSlots := [] }

/-- Read a waiter's buffered channel: first binding for the id wins. -/
def lookupSlot {α : Type} : List (Nat × α) → Nat → Option α
  | [], _ => none
  | (k, v) :: rest, i => if k = i then some v else lookupSlot rest i

/-- The loop body of `deliverMessages`: while neither list is empty, pop
the oldest waiter and the oldest message and place the message in that
waiter's `msgCh` buffer.  Returns the remaining waiters, the remaining
messages, and the updated buffer contents. -/
def deliverLoop : List Nat → List String → List (Nat × String) →
    List Nat × List String × List (Nat × String)
  | w :: ws, m :: ms, acc => deliverLoop ws ms ((w, m) :: acc)
  | ws, ms, acc => (ws, ms, acc)

/-- `queueImpl.deliverMessages` (src/queue/queue.go:184-188). -/
def deliverMessages (q : QueueImpl) : QueueImpl :=
  let r := deliverLoop q.getWaitStatuses q.messages q.msgSlots
  { q with getWaitStatuses := r.1, messages := r.2.1, msgSlots := r.2.2 }

/-- The `messageCh` branch of `dispatch` (src/queue/queue.go:159-172):
reject with `ErrTooManyItems` when `len(messages) >= maxMessageNum`,
otherwise append; either way the confirmation is sent back to the `Put`
caller and `deliverMessages` runs.  The second component is the value the
blocked `Put` call returns (`none` = nil error). -/
def handlePut (q : QueueImpl) (message : String) : QueueImpl × Option QErr :=
  if q.messages.length ≥ q.maxMessageNum then
    (deliverMessages q, some QErr.tooManyItems)
  else
    (deliverMessages { q with messages := q.messages ++ [message] }, none)

/-- The `getWaitStatusCh` branch of `dispatch` (src/queue/queue.go:173-178):
push the waiter at the back of `getWaitStatuses`, then deliver. -/
def handleGetWait (q : QueueImpl) (wid : Nat) : QueueImpl :=
  deliverMessages { q with getWaitStatuses := q.getWaitStatuses ++ [wid] }

/-- The `expiredGetElementsCh` branch of `dispatch`
(src/queue/queue.go:179-184): unconditionally send `ErrNoMessage` on the
waiter's `errCh` and remove its element from `getWaitStatuses`
(`list.Remove` on an element that was already removed is a no-op, which
`List.erase` of an absent id mirrors).  Delivery is not re-run. -/
def handleExpired (q : QueueImpl) (wid : Nat) : QueueImpl :=
  { q with errSlots := (wid, QErr.noMessage) :: q.errSlots,
           getWaitStatuses := q.getWaitStatuses.erase wid }

/-- One event of the worker's ordered stream. -/
inductive QEvent where
  | putMsg (message : String)
  | getWait (wid : Nat)
  | expired (wid : Nat)
  deriving DecidableEq

/-- One iteration of `queueImpl.dispatch` (src/queue/queue.go:148-185). -/
def dispatch (q : QueueImpl) : QEvent → QueueImpl
  | QEvent.putMsg message => (handlePut q message).1
  | QEvent.getWait wid => handleGetWait q wid
  | QEvent.expired wid => handleExpired q wid

/-- The worker consuming a whole event stream. -/
def runEvents (q : QueueImpl) (events : List QEvent) : QueueImpl :=
  events.foldl dispatch q

/-- A sequential (non-interleaved) `queueImpl.Get` call: the worker first
processes the registration event; if the registration's delivery step
already matched the waiter, the client's `select` finds only `msgCh`
ready and returns the message; otherwise the context eventually fires,
the worker processes the expiry event, and the client receives
`ErrNoMessage` from `errCh`. -/
def queueGetSeq (q : QueueImpl) (wid : Nat) : QueueImpl × String × Option QErr :=
  let q1 := handleGetWait q wid
  match lookupSlot q1.msgSlots wid with
  | some m => (q1, m, none)
  | none => (handleExpired q1 wid, "", some QErr.noMessage)

/-- What a `Get` caller may receive. -/
inductive GetOutcome where
  | msg (m : String)
  | err (e : QErr)
  deriving DecidableEq

/-- The possible results of the client's `select` in `queueImpl.Get`
(src/queue/queue.go:126-130) given the current buffer contents: Go's
`select` chooses uniformly among the READY channels, so every non-empty
buffer is a possible outcome. -/
def selectOutcomes (q : QueueImpl) (wid : Nat) : List GetOutcome :=
  (match lookupSlot q.msgSlots wid with
   | some m => [GetOutcome.msg m]
   | none => []) ++
  (match lookupSlot q.errSlots wid with
   | some e => [GetOutcome.err e]
   | none => [])

/-- `QueueManagerConfig` (src/queue/manager.go). -/
structure QueueManagerConfig where
  MaxQueueNum : Nat
  MaxMessageNumPerQueue : Nat
  deriving DecidableEq

/-- State of `queueManagerImpl`: the name-to-engine map, with a creation
id recorded per engine so that entry replacement is observable, plus
fresh-id counters (the Go code's engine identity is its pointer; `nextId`
plays that role, and `nextWid` produces fresh waiter identities for
`Get` calls). -/
structure ManagerState where
  config : QueueManagerConfig
  queues : List (String × Nat × QueueImpl)
  nextId : Nat
  nextWid : Nat
  deriving DecidableEq

/-- `newQueueManager`: empty map. -/
def newQueueManager (config : QueueManagerConfig) : ManagerState :=
  { config := config, queues := [], nextId := 0, nextWid := 0 }

/-- Map lookup (`q.queues[name]`). -/
def lookupQueue : List (String × Nat × QueueImpl) → String → Option (Nat × QueueImpl)
  | [], _ => none
  | (n, e) :: rest, name => if n = name then some e else lookupQueue rest name

/-- Store the evolved engine state back under its name (the Go map holds
a pointer, so mutating the engine leaves the map entry itself intact;
here we rewrite the entry keeping its creation id). -/
def updateQueue (l : List (String × Nat × QueueImpl)) (name : String)
    (qid : Nat) (q : QueueImpl) : List (String × Nat × QueueImpl) :=
  l.map (fun p => if p.1 = name then (p.1, qid, q) else p)

/-- `queueManagerImpl.Put` (src/queue/manager.go:65-94), sequential
semantics: resolve the engine; on a miss, re-check the queue-count cap
and create via the factory; in all cases where an engine is resolved,
delegate to its `Put`. -/
def managerPut (s : ManagerState) (name message : String) :
    ManagerState × Option QErr :=
  match lookupQueue s.queues name with
  | some (qid, q) =>
      let r := handlePut q message
      ({ s with queues := updateQueue s.queues name qid r.1 }, r.2)
  | none =>
      if s.queues.length ≥ s.config.MaxQueueNum then
        (s, some QErr.tooManyItems)
      else
        let r := handlePut (newQueueImpl s.config.MaxMessageNumPerQueue) message
        ({ s with queues := s.queues ++ [(name, s.nextId, r.1)],
                  nextId := s.nextId + 1 }, r.2)

/-- `queueManagerImpl.Get` (src/queue/manager.go:50-63), sequential
semantics: resolve with the shared read only; a missing engine yields
`("", ErrNoMessage)` without touching the map; otherwise delegate to the
engine's `Get` with a fresh waiter identity. -/
def managerGet (s : ManagerState) (name : String) :
    ManagerState × String × Option QErr :=
  match lookupQueue s.queues name with
  | none => (s, "", some QErr.noMessage)
  | some (qid, q) =>
      let r := queueGetSeq q s.nextWid
      ({ s with queues := updateQueue s.queues name qid r.1,
                nextWid := s.nextWid + 1 }, r.2.1, r.2.2)

/-- A registry-level operation. -/
inductive MOp where
  | put (name message : String)
  | get (name : String)
  deriving DecidableEq

/-- State effect of one registry operation. -/
def mstep (s : ManagerState) : MOp → ManagerState
  | MOp.put n m => (managerPut s n m).1
  | MOp.get n => (managerGet s n).1

/-- State after a sequence of registry operations. -/
def mrun (s : ManagerState) (ops : List MOp) : ManagerState :=
  ops.foldl mstep s

/-- Run a list of engine-level `Put` calls, collecting each call's
returned error. -/
def runPuts : QueueImpl → List String → QueueImpl × List (Option QErr)
  | q, [] => (q, [])
  | q, m :: ms =>
      let r := handlePut q m
      let rest := runPuts r.1 ms
      (rest.1, r.2 :: rest.2)

/-- Run `n` sequential engine-level `Get` calls with consecutive fresh
waiter ids, collecting each call's result. -/
def runGets : QueueImpl → Nat → Nat → QueueImpl × List (String × Option QErr)
  | q, _, 0 => (q, [])
  | q, wid0, Nat.succ n =>
      let r := queueGetSeq q wid0
      let rest := runGets r.1 (wid0 + 1) n
      (rest.1, (r.2.1, r.2.2) :: rest.2)

/-- Run a list of registry-level `Put (name, message)` calls, collecting
each call's returned error. -/
def runMPuts : ManagerState → List (String × String) → ManagerState × List (Option QErr)
  | s, [] => (s, [])
  | s, (n, m) :: ps =>
      let r := managerPut s n m
      let rest := runMPuts r.1 ps
      (rest.1, r.2 :: rest.2)

/-- `listAdapter.Pop` made fallible: `data.Front()` on an empty list is a
nil dereference, modelled as `none`. -/
def popFront {α : Type} : List α → Option (α × List α)
  | [] => none
  | x :: xs => some (x, xs)

/-- `deliverMessages` written exactly as the Go loop: test the loop
condition `!(waiters.Empty() || messages.Empty())`, then perform the two
`Pop`s through the fallible `popFront`.  Fuel bounds the iteration count;
`none` means either a failed `Pop` or exhausted fuel. -/
def deliverLoopChecked : Nat → List Nat → List String → List (Nat × String) →
    Option (List Nat × List String × List (Nat × String))
  | 0, _, _, _ => none
  | fuel + 1, ws, ms, acc =>
      if ws.isEmpty || ms.isEmpty then some (ws, ms, acc)
      else
        match popFront ws, popFront ms with
        | some (w, ws2), some (m, ms2) =>
            deliverLoopChecked fuel ws2 ms2 ((w, m) :: acc)
        | _, _ => none

/-! ## Basic lemmas about the delivery loop -/

theorem deliverLoop_nil_left (ms : List String) (acc : List (Nat × String)) :
    deliverLoop [] ms acc = ([], ms, acc) := by
  cases ms <;> rfl

theorem deliverLoop_nil_right (ws : List Nat) (acc : List (Nat × String)) :
    deliverLoop ws [] acc = (ws, [], acc) := by
  cases ws <;> rfl

theorem deliverLoop_cons (w : Nat) (ws : List Nat) (m : String) (ms : List String)
    (acc : List (Nat × String)) :
    deliverLoop (w :: ws) (m :: ms) acc = deliverLoop ws ms ((w, m) :: acc) := rfl

theorem deliverLoop_one_empty (ws : List Nat) (ms : List String)
    (acc : List (Nat × String)) :
    (deliverLoop ws ms acc).1 = [] ∨ (deliverLoop ws ms acc).2.1 = [] := by
  induction ws generalizing ms acc with
  | nil => left; rw [deliverLoop_nil_left]
  | cons w ws ih =>
    cases ms with
    | nil => right; rw [deliverLoop_nil_right]
    | cons m ms => rw [deliverLoop_cons]; exact ih ms _

theorem deliverLoop_msgs_length (ws : List Nat) (ms : List String)
    (acc : List (Nat × String)) :
    (deliverLoop ws ms acc).2.1.length ≤ ms.length := by
  induction ws generalizing ms acc with
  | nil => rw [deliverLoop_nil_left]
  | cons w ws ih =>
    cases ms with
    | nil => rw [deliverLoop_nil_right]
    | cons m ms =>
      rw [deliverLoop_cons]
      exact Nat.le_trans (ih ms _) (Nat.le_succ _)

theorem deliverMessages_no_waiters (q : QueueImpl) (h : q.getWaitStatuses = []) :
    deliverMessages q = q := by
  obtain ⟨mx, ms, ws, sl, er⟩ := q
  have h2 : ws = [] := h
  subst h2
  unfold deliverMessages
  rw [deliverLoop_nil_left]

theorem deliverMessages_messages_length (q : QueueImpl) :
    (deliverMessages q).messages.length ≤ q.messages.length :=
  deliverLoop_msgs_length q.getWaitStatuses q.messages q.msgSlots

/-! ## The mutual-emptiness invariant (C5) -/

/-- The quiescent-point invariant: backlog and waiters are not both
non-empty. -/
def QInv (q : QueueImpl) : Prop :=
  q.messages = [] ∨ q.getWaitStatuses = []

theorem QInv_deliverMessages (q : QueueImpl) : QInv (deliverMessages q) := by
  rcases deliverLoop_one_empty q.getWaitStatuses q.messages q.msgSlots with h | h
  · right; exact h
  · left; exact h

theorem QInv_handlePut_fst (q : QueueImpl) (m : String) : QInv (handlePut q m).1 := by
  unfold handlePut
  split <;> exact QInv_deliverMessages _

theorem QInv_handleExpired (q : QueueImpl) (wid : Nat) (h : QInv q) :
    QInv (handleExpired q wid) := by
  rcases h with h | h
  · left; exact h
  · right; show (q.getWaitStatuses.erase wid) = []
    rw [h]; rfl

theorem QInv_dispatch (q : QueueImpl) (e : QEvent) (h : QInv q) :
    QInv (dispatch q e) := by
  cases e with
  | putMsg m => exact QInv_handlePut_fst q m
  | getWait wid => exact QInv_deliverMessages _
  | expired wid => exact QInv_handleExpired q wid h

theorem QInv_runEvents (q : QueueImpl) (events : List QEvent) (h : QInv q) :
    QInv (runEvents q events) := by
  induction events generalizing q with
  | nil => exact h
  | cons e es ih =>
    simp only [runEvents, List.foldl_cons]
    exact ih (dispatch q e) (QInv_dispatch q e h)

/-- C5: after the worker finishes processing any single event starting
from a fresh queue (a quiescent point), the message backlog and the
waiter list are never both non-empty: the delivery step runs to fixpoint
after every new-message and new-waiter event, and the expiry removal
(which does not re-run delivery) preserves the mutual emptiness. -/
theorem backlog_waiters_mutual_emptiness (maxN : Nat) (events : List QEvent) :
    (runEvents (newQueueImpl maxN) events).messages = [] ∨
    (runEvents (newQueueImpl maxN) events).getWaitStatuses = [] :=
  QInv_runEvents (newQueueImpl maxN) events (Or.inl rfl)

/-! ## The backlog-length bound and the capacity property (C2) -/

theorem dispatch_maxMessageNum (q : QueueImpl) (e : QEvent) :
    (dispatch q e).maxMessageNum = q.maxMessageNum := by
  cases e with
  | putMsg m =>
    show (handlePut q m).1.maxMessageNum = q.maxMessageNum
    unfold handlePut
    split <;> rfl
  | getWait wid => rfl
  | expired wid => rfl

theorem dispatch_messages_length (q : QueueImpl) (e : QEvent)
    (h : q.messages.length ≤ q.maxMessageNum) :
    (dispatch q e).messages.length ≤ q.maxMessageNum := by
  cases e with
  | putMsg m =>
    show (handlePut q m).1.messages.length ≤ q.maxMessageNum
    unfold handlePut
    split
    · exact Nat.le_trans (deliverMessages_messages_length q) h
    · rename_i hlt
      refine Nat.le_trans (deliverMessages_messages_length _) ?_
      simp only [List.length_append, List.length_singleton]
      omega
  | getWait wid =>
    exact Nat.le_trans (deliverMessages_messages_length _) h
  | expired wid => exact h

theorem runEvents_length_aux (events : List QEvent) : ∀ q : QueueImpl,
    q.messages.length ≤ q.maxMessageNum →
    (runEvents q events).messages.length ≤ q.maxMessageNum := by
  induction events with
  | nil => intro q h; exact h
  | cons e es ih =>
    intro q h
    simp only [runEvents, List.foldl_cons]
    have h2 := ih (dispatch q e) (by rw [dispatch_maxMessageNum]; exact dispatch_messages_length q e h)
    rwa [dispatch_maxMessageNum] at h2

theorem runPuts_all_accepted (msgs : List String) : ∀ q : QueueImpl,
    q.getWaitStatuses = [] →
    q.messages.length + msgs.length ≤ q.maxMessageNum →
    runPuts q msgs =
      ({ q with messages := q.messages ++ msgs }, msgs.map (fun _ => none)) := by
  induction msgs with
  | nil => intro q h1 h2; simp [runPuts]
  | cons m ms ih =>
    intro q h1 h2
    simp only [List.length_cons] at h2
    unfold runPuts handlePut
    rw [if_neg (by omega)]
    have hd : deliverMessages { q with messages := q.messages ++ [m] } =
        { q with messages := q.messages ++ [m] } :=
      deliverMessages_no_waiters _ h1
    simp only [hd]
    rw [ih { q with messages := q.messages ++ [m] } h1
      (by simp only [List.length_append, List.length_singleton]; omega)]
    simp [List.append_assoc]

/-- C2: on a fresh queue of capacity `maxN`, `maxN` `Put` calls all
succeed; the next `Put` returns `TooManyItems` and leaves the whole queue
state (in particular, the backlog contents and order) unchanged; and
because the rejection comparison is `>=`, the backlog length never
exceeds `maxN` after any event sequence. -/
theorem put_capacity_rejects_at_limit (maxN : Nat) (msgs : List String) (m : String)
    (events : List QEvent) (h : msgs.length = maxN) :
    (runPuts (newQueueImpl maxN) msgs).2 = msgs.map (fun _ => none) ∧
    (handlePut (runPuts (newQueueImpl maxN) msgs).1 m).2 = some QErr.tooManyItems ∧
    (handlePut (runPuts (newQueueImpl maxN) msgs).1 m).1 =
      (runPuts (newQueueImpl maxN) msgs).1 ∧
    (runEvents (newQueueImpl maxN) events).messages.length ≤ maxN := by
  have hr := runPuts_all_accepted msgs (newQueueImpl maxN) rfl
    (by simp [newQueueImpl, h])
  have hfull : (runPuts (newQueueImpl maxN) msgs).1 =
      { newQueueImpl maxN with messages := msgs } := by
    rw [hr]; simp [newQueueImpl]
  refine ⟨by rw [hr], ?_, ?_, runEvents_length_aux events (newQueueImpl maxN) (Nat.zero_le _)⟩
  · rw [hfull]
    unfold handlePut
    rw [if_pos (by simp [newQueueImpl, h])]
  · rw [hfull]
    unfold handlePut
    rw [if_pos (by simp [newQueueImpl, h])]
    exact deliverMessages_no_waiters _ rfl

/-- C2 witness at `maxN = 2`, `msgs = ["a", "b"]`. -/
theorem put_capacity_rejects_at_limit_witness :
    (runPuts (newQueueImpl 2) ["a", "b"]).2 = ["a", "b"].map (fun _ => none) ∧
    (handlePut (runPuts (newQueueImpl 2) ["a", "b"]).1 "c").2 = some QErr.tooManyItems ∧
    (handlePut (runPuts (newQueueImpl 2) ["a", "b"]).1 "c").1 =
      (runPuts (newQueueImpl 2) ["a", "b"]).1 ∧
    (runEvents (newQueueImpl 2) [QEvent.putMsg "x", QEvent.getWait 0]).messages.length ≤ 2 :=
  put_capacity_rejects_at_limit 2 ["a", "b"] "c"
    [QEvent.putMsg "x", QEvent.getWait 0] (by decide)

/-! ## Sequential Get steps and the FIFO property (C1) -/

theorem handleGetWait_match (q : QueueImpl) (wid : Nat) (m : String) (ms : List String)
    (h1 : q.getWaitStatuses = []) (h2 : q.messages = m :: ms) :
    handleGetWait q wid =
      { q with messages := ms, getWaitStatuses := [],
               msgSlots := (wid, m) :: q.msgSlots } := by
  obtain ⟨mx, qms, ws, sl, er⟩ := q
  have h1b : ws = [] := h1
  have h2b : qms = m :: ms := h2
  subst h1b h2b
  unfold handleGetWait deliverMessages
  rw [List.nil_append, deliverLoop_cons, deliverLoop_nil_left]

theorem handleGetWait_no_messages (q : QueueImpl) (wid : Nat)
    (h2 : q.messages = []) :
    handleGetWait q wid =
      { q with getWaitStatuses := q.getWaitStatuses ++ [wid] } := by
  obtain ⟨mx, qms, ws, sl, er⟩ := q
  have h2b : qms = [] := h2
  subst h2b
  unfold handleGetWait deliverMessages
  rw [deliverLoop_nil_right]

theorem queueGetSeq_match (q : QueueImpl) (wid : Nat) (m : String) (ms : List String)
    (h1 : q.getWaitStatuses = []) (h2 : q.messages = m :: ms) :
    queueGetSeq q wid =
      ({ q with messages := ms, getWaitStatuses := [],
                msgSlots := (wid, m) :: q.msgSlots }, m, none) := by
  unfold queueGetSeq
  rw [handleGetWait_match q wid m ms h1 h2]
  simp [lookupSlot]

theorem runGets_drain (ms : List String) : ∀ (q : QueueImpl) (wid0 : Nat),
    q.getWaitStatuses = [] → q.messages = ms →
    (runGets q wid0 ms.length).2 = ms.map (fun m => (m, none)) := by
  induction ms with
  | nil => intro q wid0 h1 h2; rfl
  | cons m ms ih =>
    intro q wid0 h1 h2
    show (runGets q wid0 (ms.length + 1)).2 = (m, none) :: ms.map (fun m => (m, none))
    unfold runGets
    rw [queueGetSeq_match q wid0 m ms h1 h2]
    simp only [List.cons.injEq, true_and]
    exact ih _ (wid0 + 1) rfl rfl

/-- C1: for every `N ≥ 0`, after `N` successful `Put` calls on a fresh
queue followed by `N` `Get` calls with no interleaving, the `i`-th `Get`
returns exactly the `i`-th `Put`'s message (strict FIFO: insertion order
equals delivery order). -/
theorem fifo_put_then_get (maxN : Nat) (msgs : List String)
    (h : msgs.length ≤ maxN) :
    (runPuts (newQueueImpl maxN) msgs).2 = msgs.map (fun _ => none) ∧
    (runGets (runPuts (newQueueImpl maxN) msgs).1 0 msgs.length).2 =
      msgs.map (fun m => (m, none)) := by
  have hr := runPuts_all_accepted msgs (newQueueImpl maxN) rfl
    (by simpa [newQueueImpl] using h)
  refine ⟨by rw [hr], ?_⟩
  rw [hr]
  exact runGets_drain msgs _ 0 rfl (by simp [newQueueImpl])

/-- C1 witness at `maxN = 3`, `msgs = ["a", "b", "c"]`. -/
theorem fifo_put_then_get_witness :
    (runPuts (newQueueImpl 3) ["a", "b", "c"]).2 =
      ["a", "b", "c"].map (fun _ => none) ∧
    (runGets (runPuts (newQueueImpl 3) ["a", "b", "c"]).1 0 3).2 =
      ["a", "b", "c"].map (fun m => (m, none)) :=
  fifo_put_then_get 3 ["a", "b", "c"] (by decide)

/-! ## The expiry event on an already-matched waiter (C3)

In the source, once `deliverMessages` has matched a waiter, the waiter is
popped from `getWaitStatuses` and the message sits in its buffered
`msgCh`.  When that waiter's expiry event arrives later, the
`expiredGetElementsCh` branch (src/queue/queue.go:179-184) still sends
`ErrNoMessage` on the waiter's `errCh` unconditionally; only the list
removal is a no-op.  The client's `select` in `Get` then has BOTH
channels ready and Go chooses between them uniformly at random, so the
`Get` can return `NoMessage` while the already-popped message is stranded
in the buffer — the delivered message is lost. -/

/-- C3 (evaluation at the failing input): on a fresh queue of capacity 1,
after `Put "m"`, waiter 0 registers and is matched (`msgCh` holds `"m"`,
the waiter list is empty, the backlog is empty), yet processing waiter
0's expiry event afterwards still writes `NoMessage` into its `errCh`:
the client's `select` now has both outcomes possible, so the expiry event
is NOT a no-op and the matched message can be lost. -/
theorem expiry_event_after_match_writes_noMessage :
    lookupSlot (handleGetWait (handlePut (newQueueImpl 1) "m").1 0).msgSlots 0 =
      some "m" ∧
    (handleGetWait (handlePut (newQueueImpl 1) "m").1 0).getWaitStatuses = [] ∧
    selectOutcomes
      (handleExpired (handleGetWait (handlePut (newQueueImpl 1) "m").1 0) 0) 0 =
      [GetOutcome.msg "m", GetOutcome.err QErr.noMessage] ∧
    (handleExpired (handleGetWait (handlePut (newQueueImpl 1) "m").1 0) 0).messages =
      [] := by
  refine ⟨rfl, rfl, rfl, rfl⟩

/-! ## Get with an already-expired deadline (C7) -/

/-- C7 counterexample: the claim says a `Get` whose deadline is already
expired returns `NoMessage` and never a message, for every queue state.
But the worker always processes the registration event first (the expiry
goroutine must wait for `createdElemCh`), and the registration's delivery
step matches the waiter against a non-empty backlog regardless of the
deadline.  Right after that step only `msgCh` is ready, so the client's
`select` can return the message: on backlog `["m"]` the only possible
outcome at that point is `msg "m"`, not `NoMessage`. -/
theorem expired_get_can_return_message :
    selectOutcomes (handleGetWait (handlePut (newQueueImpl 1) "m").1 0) 0 =
      [GetOutcome.msg "m"] := by
  rfl

theorem queueGetSeq_unmatched (q : QueueImpl) (wid : Nat)
    (h1 : q.messages = []) (h2 : lookupSlot q.msgSlots wid = none) :
    (queueGetSeq q wid).2 = ("", some QErr.noMessage) := by
  unfold queueGetSeq
  rw [handleGetWait_no_messages q wid h1]
  simp only [h2]

/-- C7 (amended): a `Get` whose deadline is already expired still
terminates; whenever its waiter is not matched by the registration's
delivery step — in particular on every queue with an empty backlog — it
returns `("", NoMessage)`. -/
theorem expired_get_noMessage_when_unmatched (q : QueueImpl) (wid : Nat)
    (h1 : q.messages = []) (h2 : lookupSlot q.msgSlots wid = none) :
    (queueGetSeq q wid).2 = ("", some QErr.noMessage) :=
  queueGetSeq_unmatched q wid h1 h2

/-- C7 witness: a fresh queue of capacity 5 and waiter id 0. -/
theorem expired_get_noMessage_when_unmatched_witness :
    (queueGetSeq (newQueueImpl 5) 0).2 = ("", some QErr.noMessage) :=
  expired_get_noMessage_when_unmatched (newQueueImpl 5) 0 rfl rfl

/-! ## The guarded Pop in deliverMessages (C9) -/

theorem deliverLoopChecked_eq_deliverLoop (ws : List Nat) :
    ∀ (fuel : Nat) (ms : List String) (acc : List (Nat × String)),
    ws.length < fuel →
    deliverLoopChecked fuel ws ms acc = some (deliverLoop ws ms acc) := by
  induction ws with
  | nil =>
    intro fuel ms acc hf
    match fuel, hf with
    | fuel + 1, _ =>
      rw [deliverLoop_nil_left]
      rfl
  | cons w ws ih =>
    intro fuel ms acc hf
    match fuel, hf with
    | fuel + 1, hf =>
      cases ms with
      | nil =>
        rw [deliverLoop_nil_right]
        rfl
      | cons m ms =>
        rw [deliverLoop_cons]
        show deliverLoopChecked fuel ws ms ((w, m) :: acc) = _
        exact ih fuel ms ((w, m) :: acc) (Nat.lt_of_succ_lt_succ hf)

/-- C9: `deliverMessages` never pops from an empty list.  The checked
variant performs the two `Pop`s through the fallible `popFront` (whose
front-element dereference fails on an empty list, returning `none`) but
only under the loop condition that both lists are non-empty; given enough
fuel it always succeeds and agrees with the total `deliverLoop`, so the
failing dereference inside `Pop` is unreachable. -/
theorem deliver_pop_guarded (ws : List Nat) (ms : List String)
    (acc : List (Nat × String)) (fuel : Nat) (hf : ws.length < fuel) :
    popFront (α := String) [] = none ∧
    deliverLoopChecked fuel ws ms acc = some (deliverLoop ws ms acc) :=
  ⟨rfl, deliverLoopChecked_eq_deliverLoop ws fuel ms acc hf⟩

/-- C9 witness at two waiters, three messages, fuel 3. -/
theorem deliver_pop_guarded_witness :
    popFront (α := String) [] = none ∧
    deliverLoopChecked 3 [1, 2] ["x", "y", "z"] [] =
      some (deliverLoop [1, 2] ["x", "y", "z"] []) :=
  deliver_pop_guarded [1, 2] ["x", "y", "z"] [] 3 (by decide)

/-! ## Manager step lemmas -/

theorem managerGet_none (s : ManagerState) (name : String)
    (h : lookupQueue s.queues name = none) :
    managerGet s name = (s, "", some QErr.noMessage) := by
  unfold managerGet
  rw [h]

theorem managerGet_some (s : ManagerState) (name : String) (qid : Nat) (q : QueueImpl)
    (h : lookupQueue s.queues name = some (qid, q)) :
    managerGet s name =
      ({ s with queues := updateQueue s.queues name qid (queueGetSeq q s.nextWid).1,
                nextWid := s.nextWid + 1 },
       (queueGetSeq q s.nextWid).2.1, (queueGetSeq q s.nextWid).2.2) := by
  unfold managerGet
  rw [h]

theorem managerPut_some (s : ManagerState) (name message : String) (qid : Nat)
    (q : QueueImpl) (h : lookupQueue s.queues name = some (qid, q)) :
    managerPut s name message =
      ({ s with queues := updateQueue s.queues name qid (handlePut q message).1 },
       (handlePut q message).2) := by
  unfold managerPut
  rw [h]

theorem managerPut_none_reject (s : ManagerState) (name message : String)
    (h : lookupQueue s.queues name = none)
    (hlen : s.queues.length ≥ s.config.MaxQueueNum) :
    managerPut s name message = (s, some QErr.tooManyItems) := by
  unfold managerPut
  rw [h, if_pos hlen]

theorem managerPut_none_create (s : ManagerState) (name message : String)
    (h : lookupQueue s.queues name = none)
    (hlen : ¬ s.queues.length ≥ s.config.MaxQueueNum) :
    managerPut s name message =
      ({ s with
          queues := s.queues ++
            [(name, s.nextId,
              (handlePut (newQueueImpl s.config.MaxMessageNumPerQueue) message).1)],
          nextId := s.nextId + 1 },
       (handlePut (newQueueImpl s.config.MaxMessageNumPerQueue) message).2) := by
  unfold managerPut
  rw [h, if_neg hlen]

theorem handlePut_fresh (maxMsg : Nat) (m : String) (h : 1 ≤ maxMsg) :
    handlePut (newQueueImpl maxMsg) m =
      ({ newQueueImpl maxMsg with messages := [m] }, none) := by
  unfold handlePut
  rw [if_neg (by show ¬ (newQueueImpl maxMsg).messages.length ≥ maxMsg; simp [newQueueImpl]; omega)]
  rw [deliverMessages_no_waiters _ rfl]
  rfl

/-! ## Get on a never-created queue (C6) -/

/-- C6: a registry `Get` for a name with no registered engine returns the
empty string with `NoMessage` and leaves the whole registry state (in
particular the name-to-engine mapping) unchanged; and a `Get` on an
existing queue with an empty backlog returns the same `("", NoMessage)`,
so a never-written queue is observationally identical to an existing
empty queue. -/
theorem get_absent_queue_noMessage (s s2 : ManagerState) (name name2 : String)
    (qid : Nat) (q : QueueImpl)
    (h : lookupQueue s.queues name = none)
    (h2 : lookupQueue s2.queues name2 = some (qid, q))
    (hq1 : q.messages = []) (hq2 : lookupSlot q.msgSlots s2.nextWid = none) :
    managerGet s name = (s, "", some QErr.noMessage) ∧
    (managerGet s2 name2).2 = ("", some QErr.noMessage) := by
  refine ⟨managerGet_none s name h, ?_⟩
  rw [managerGet_some s2 name2 qid q h2]
  show ((queueGetSeq q s2.nextWid).2.1, (queueGetSeq q s2.nextWid).2.2) = _
  rw [Prod.mk.eta]
  exact queueGetSeq_unmatched q s2.nextWid hq1 hq2

/-- C6 witness: an empty registry and a registry holding one empty queue. -/
theorem get_absent_queue_noMessage_witness :
    managerGet (newQueueManager ⟨2, 5⟩) "never" =
      (newQueueManager ⟨2, 5⟩, "", some QErr.noMessage) ∧
    (managerGet
      { config := ⟨2, 5⟩, queues := [("q", 0, newQueueImpl 5)],
        nextId := 1, nextWid := 0 } "q").2 = ("", some QErr.noMessage) :=
  get_absent_queue_noMessage (newQueueManager ⟨2, 5⟩)
    { config := ⟨2, 5⟩, queues := [("q", 0, newQueueImpl 5)], nextId := 1, nextWid := 0 }
    "never" "q" 0 (newQueueImpl 5) rfl rfl rfl rfl

/-! ## The empty string as a queue name (C10) -/

/-- C10: the empty string is an ordinary queue name: on a fresh registry,
`Put("", msg)` succeeds by creating a queue keyed by `""` (which counts
toward `MaxQueueNum`: with `MaxQueueNum = 1` a following `Put` to any
other name is rejected with `TooManyItems`), and a subsequent `Get` with
name `""` retrieves its message exactly like any other name. -/
theorem empty_string_queue_name (cfg : QueueManagerConfig) (msg m2 other : String)
    (h1 : 1 ≤ cfg.MaxQueueNum) (h2 : 1 ≤ cfg.MaxMessageNumPerQueue)
    (hother : other ≠ "") :
    (managerPut (newQueueManager cfg) "" msg).2 = none ∧
    lookupQueue (managerPut (newQueueManager cfg) "" msg).1.queues "" =
      some (0, { newQueueImpl cfg.MaxMessageNumPerQueue with messages := [msg] }) ∧
    (managerPut (newQueueManager cfg) "" msg).1.queues.length = 1 ∧
    (managerGet (managerPut (newQueueManager cfg) "" msg).1 "").2 = (msg, none) ∧
    (cfg.MaxQueueNum = 1 →
      managerPut (managerPut (newQueueManager cfg) "" msg).1 other m2 =
        ((managerPut (newQueueManager cfg) "" msg).1, some QErr.tooManyItems)) := by
  have hcreate := managerPut_none_create (newQueueManager cfg) "" msg rfl
    (by show ¬ ([] : List (String × Nat × QueueImpl)).length ≥ cfg.MaxQueueNum; simp; omega)
  have hur : managerPut (newQueueManager cfg) "" msg =
      ({ config := cfg,
         queues := [("", 0, (handlePut (newQueueImpl cfg.MaxMessageNumPerQueue) msg).1)],
         nextId := 1, nextWid := 0 },
       (handlePut (newQueueImpl cfg.MaxMessageNumPerQueue) msg).2) := hcreate
  rw [hur, handlePut_fresh cfg.MaxMessageNumPerQueue msg h2]
  refine ⟨rfl, ?_, rfl, ?_, ?_⟩
  · show (if "" = "" then
        some (0, { newQueueImpl cfg.MaxMessageNumPerQueue with messages := [msg] })
      else lookupQueue [] "") = _
    rw [if_pos rfl]
  · rw [managerGet_some _ "" 0
      { newQueueImpl cfg.MaxMessageNumPerQueue with messages := [msg] }
      (by show (if "" = "" then _ else _) = _; rw [if_pos rfl])]
    show ((queueGetSeq _ 0).2.1, (queueGetSeq _ 0).2.2) = _
    rw [Prod.mk.eta, queueGetSeq_match _ 0 msg [] rfl rfl]
  · intro hone
    refine managerPut_none_reject _ other m2 ?_ ?_
    · show (if "" = other then _ else _) = none
      rw [if_neg (fun hh => hother hh.symm)]
      rfl
    · show (1 : Nat) ≥ cfg.MaxQueueNum
      omega

/-- C10 witness: `cfg = ⟨1, 3⟩`, message `"hello"`, other name `"q"`. -/
theorem empty_string_queue_name_witness :
    (managerPut (newQueueManager ⟨1, 3⟩) "" "hello").2 = none ∧
    lookupQueue (managerPut (newQueueManager ⟨1, 3⟩) "" "hello").1.queues "" =
      some (0, { newQueueImpl 3 with messages := ["hello"] }) ∧
    (managerPut (newQueueManager ⟨1, 3⟩) "" "hello").1.queues.length = 1 ∧
    (managerGet (managerPut (newQueueManager ⟨1, 3⟩) "" "hello").1 "").2 =
      ("hello", none) ∧
    (QueueManagerConfig.MaxQueueNum ⟨1, 3⟩ = 1 →
      managerPut (managerPut (newQueueManager ⟨1, 3⟩) "" "hello").1 "q" "x" =
        ((managerPut (newQueueManager ⟨1, 3⟩) "" "hello").1, some QErr.tooManyItems)) :=
  empty_string_queue_name ⟨1, 3⟩ "hello" "x" "q" (by decide) (by decide)
    (by decide)

/-! ## Registry invariants (C8) -/

theorem updateQueue_length (l : List (String × Nat × QueueImpl)) (name : String)
    (qid : Nat) (q : QueueImpl) :
    (updateQueue l name qid q).length = l.length :=
  List.length_map l _

theorem lookupQueue_cons (n : String) (e : Nat × QueueImpl)
    (rest : List (String × Nat × QueueImpl)) (name : String) :
    lookupQueue ((n, e) :: rest) name =
      if n = name then some e else lookupQueue rest name := rfl

theorem updateQueue_cons (n : String) (e : Nat × QueueImpl)
    (rest : List (String × Nat × QueueImpl)) (name : String) (qid : Nat)
    (q : QueueImpl) :
    updateQueue ((n, e) :: rest) name qid q =
      (if n = name then (n, qid, q) else (n, e)) :: updateQueue rest name qid q := by
  show _ :: updateQueue rest name qid q = _
  by_cases hp : n = name <;> simp [hp]

theorem lookupQueue_update_self (l : List (String × Nat × QueueImpl)) (name : String)
    (qid : Nat) (q : QueueImpl) (e : Nat × QueueImpl)
    (h : lookupQueue l name = some e) :
    lookupQueue (updateQueue l name qid q) name = some (qid, q) := by
  induction l with
  | nil => cases h
  | cons p rest ih =>
    obtain ⟨n, pe⟩ := p
    rw [lookupQueue_cons] at h
    rw [updateQueue_cons]
    by_cases hp : n = name
    · rw [if_pos hp, lookupQueue_cons, if_pos hp]
    · rw [if_neg hp, lookupQueue_cons, if_neg hp]
      rw [if_neg hp] at h
      exact ih h

theorem lookupQueue_update_other (l : List (String × Nat × QueueImpl))
    (name name2 : String) (qid : Nat) (q : QueueImpl) (h : name2 ≠ name) :
    lookupQueue (updateQueue l name qid q) name2 = lookupQueue l name2 := by
  induction l with
  | nil => rfl
  | cons p rest ih =>
    obtain ⟨n, pe⟩ := p
    rw [updateQueue_cons]
    by_cases hp : n = name
    · have hn2 : ¬ n = name2 := fun hh => h (by rw [← hh]; exact hp)
      rw [if_pos hp, lookupQueue_cons, lookupQueue_cons, if_neg hn2, if_neg hn2]
      exact ih
    · rw [if_neg hp, lookupQueue_cons, lookupQueue_cons, ih]

theorem lookupQueue_append_some (l1 l2 : List (String × Nat × QueueImpl))
    (name : String) (e : Nat × QueueImpl) (h : lookupQueue l1 name = some e) :
    lookupQueue (l1 ++ l2) name = some e := by
  induction l1 with
  | nil => cases h
  | cons p rest ih =>
    obtain ⟨n, pe⟩ := p
    rw [lookupQueue_cons] at h
    show lookupQueue ((n, pe) :: (rest ++ l2)) name = some e
    rw [lookupQueue_cons]
    by_cases hp : n = name
    · rwa [if_pos hp] at h ⊢
    · rw [if_neg hp]
      rw [if_neg hp] at h
      exact ih h

theorem mstep_config (s : ManagerState) (op : MOp) : (mstep s op).config = s.config := by
  cases op with
  | put n m =>
    show ((managerPut s n m).1).config = s.config
    cases hl : lookupQueue s.queues n with
    | none =>
      by_cases hlen : s.queues.length ≥ s.config.MaxQueueNum
      · rw [managerPut_none_reject s n m hl hlen]
      · rw [managerPut_none_create s n m hl hlen]
    | some e =>
      obtain ⟨qid, q⟩ := e
      rw [managerPut_some s n m qid q hl]
  | get n =>
    show ((managerGet s n).1).config = s.config
    cases hl : lookupQueue s.queues n with
    | none => rw [managerGet_none s n hl]
    | some e =>
      obtain ⟨qid, q⟩ := e
      rw [managerGet_some s n qid q hl]

theorem mstep_queues_length (s : ManagerState) (op : MOp)
    (h : s.queues.length ≤ s.config.MaxQueueNum) :
    (mstep s op).queues.length ≤ s.config.MaxQueueNum := by
  cases op with
  | put n m =>
    show ((managerPut s n m).1).queues.length ≤ _
    cases hl : lookupQueue s.queues n with
    | none =>
      by_cases hlen : s.queues.length ≥ s.config.MaxQueueNum
      · rw [managerPut_none_reject s n m hl hlen]; exact h
      · rw [managerPut_none_create s n m hl hlen]
        show (s.queues ++ [_]).length ≤ _
        rw [List.length_append, List.length_singleton]
        omega
    | some e =>
      obtain ⟨qid, q⟩ := e
      rw [managerPut_some s n m qid q hl]
      show (updateQueue s.queues n qid _).length ≤ _
      rw [updateQueue_length]
      exact h
  | get n =>
    show ((managerGet s n).1).queues.length ≤ _
    cases hl : lookupQueue s.queues n with
    | none => rw [managerGet_none s n hl]; exact h
    | some e =>
      obtain ⟨qid, q⟩ := e
      rw [managerGet_some s n qid q hl]
      show (updateQueue s.queues n qid _).length ≤ _
      rw [updateQueue_length]
      exact h

theorem mstep_persist (s : ManagerState) (op : MOp) (name : String) (qid : Nat)
    (h : ∃ q0, lookupQueue s.queues name = some (qid, q0)) :
    ∃ q1, lookupQueue (mstep s op).queues name = some (qid, q1) := by
  obtain ⟨q0, h0⟩ := h
  cases op with
  | put n m =>
    show ∃ q1, lookupQueue ((managerPut s n m).1).queues name = some (qid, q1)
    cases hl : lookupQueue s.queues n with
    | none =>
      by_cases hlen : s.queues.length ≥ s.config.MaxQueueNum
      · rw [managerPut_none_reject s n m hl hlen]; exact ⟨q0, h0⟩
      · rw [managerPut_none_create s n m hl hlen]
        exact ⟨q0, lookupQueue_append_some s.queues _ name (qid, q0) h0⟩
    | some e =>
      obtain ⟨qid2, q2⟩ := e
      rw [managerPut_some s n m qid2 q2 hl]
      by_cases hn : name = n
      · subst hn
        have heq : (qid, q0) = (qid2, q2) := Option.some.inj (h0.symm.trans hl)
        have hq : qid2 = qid := (congrArg Prod.fst heq).symm
        subst hq
        refine ⟨(handlePut q2 m).1, ?_⟩
        show lookupQueue (updateQueue s.queues name qid2 (handlePut q2 m).1) name =
          some (qid2, (handlePut q2 m).1)
        exact lookupQueue_update_self s.queues name qid2 (handlePut q2 m).1 (qid2, q0) h0
      · refine ⟨q0, ?_⟩
        show lookupQueue (updateQueue s.queues n qid2 (handlePut q2 m).1) name =
          some (qid, q0)
        rw [lookupQueue_update_other s.queues n name qid2 (handlePut q2 m).1 hn]
        exact h0
  | get n =>
    show ∃ q1, lookupQueue ((managerGet s n).1).queues name = some (qid, q1)
    cases hl : lookupQueue s.queues n with
    | none => rw [managerGet_none s n hl]; exact ⟨q0, h0⟩
    | some e =>
      obtain ⟨qid2, q2⟩ := e
      rw [managerGet_some s n qid2 q2 hl]
      by_cases hn : name = n
      · subst hn
        have heq : (qid, q0) = (qid2, q2) := Option.some.inj (h0.symm.trans hl)
        have hq : qid2 = qid := (congrArg Prod.fst heq).symm
        subst hq
        refine ⟨(queueGetSeq q2 s.nextWid).1, ?_⟩
        show lookupQueue (updateQueue s.queues name qid2 (queueGetSeq q2 s.nextWid).1) name =
          some (qid2, (queueGetSeq q2 s.nextWid).1)
        exact lookupQueue_update_self s.queues name qid2 (queueGetSeq q2 s.nextWid).1 (qid2, q0) h0
      · refine ⟨q0, ?_⟩
        show lookupQueue (updateQueue s.queues n qid2 (queueGetSeq q2 s.nextWid).1) name =
          some (qid, q0)
        rw [lookupQueue_update_other s.queues n name qid2 (queueGetSeq q2 s.nextWid).1 hn]
        exact h0

theorem mrun_length_persist (ops : List MOp) : ∀ (s : ManagerState) (name : String)
    (qid : Nat),
    s.queues.length ≤ s.config.MaxQueueNum →
    (∃ q0, lookupQueue s.queues name = some (qid, q0)) →
    (mrun s ops).queues.length ≤ s.config.MaxQueueNum ∧
    ∃ q1, lookupQueue (mrun s ops).queues name = some (qid, q1) := by
  induction ops with
  | nil => intro s name qid h1 h2; exact ⟨h1, h2⟩
  | cons op ops ih =>
    intro s name qid h1 h2
    show (mrun (mstep s op) ops).queues.length ≤ _ ∧ _
    have hc := mstep_config s op
    have := ih (mstep s op) name qid (by rw [hc]; exact mstep_queues_length s op h1)
      (mstep_persist s op name qid h2)
    rw [hc] at this
    exact this

/-- C8: starting from any registry state within its configured bound, the
number of registered queue names stays at most `MaxQueueNum` after every
sequence of registry `Put`/`Get` operations, and once a name maps to an
engine (identified by its creation id), that entry is never removed or
replaced by any such operation. -/
theorem registry_size_and_persistence (s : ManagerState) (ops : List MOp)
    (name : String) (qid : Nat) (q0 : QueueImpl)
    (hlen : s.queues.length ≤ s.config.MaxQueueNum)
    (hname : lookupQueue s.queues name = some (qid, q0)) :
    (mrun s ops).queues.length ≤ s.config.MaxQueueNum ∧
    ∃ q1, lookupQueue (mrun s ops).queues name = some (qid, q1) :=
  mrun_length_persist ops s name qid hlen ⟨q0, hname⟩

/-- C8 witness: one registered queue, then a put to a new name, a get,
and a put to the existing name. -/
theorem registry_size_and_persistence_witness :
    (mrun { config := ⟨2, 5⟩, queues := [("q", 0, newQueueImpl 5)],
            nextId := 1, nextWid := 0 }
        [MOp.put "r" "x", MOp.get "q", MOp.put "q" "y"]).queues.length ≤ 2 ∧
    ∃ q1, lookupQueue
        (mrun { config := ⟨2, 5⟩, queues := [("q", 0, newQueueImpl 5)],
                nextId := 1, nextWid := 0 }
          [MOp.put "r" "x", MOp.get "q", MOp.put "q" "y"]).queues "q" =
      some (0, q1) :=
  registry_size_and_persistence
    { config := ⟨2, 5⟩, queues := [("q", 0, newQueueImpl 5)], nextId := 1, nextWid := 0 }
    [MOp.put "r" "x", MOp.get "q", MOp.put "q" "y"] "q" 0 (newQueueImpl 5)
    (by decide) rfl

/-! ## The queue-count cap (C4) -/

/-- The map entries produced by a run of first-time creations: name `i`
gets creation id `i` counting up, and its engine is a fresh queue that
has processed one `Put`. -/
def createdEntries (maxMsg : Nat) : Nat → List (String × String) →
    List (String × Nat × QueueImpl)
  | _, [] => []
  | i, (n, m) :: ps =>
      (n, i, (handlePut (newQueueImpl maxMsg) m).1) :: createdEntries maxMsg (i + 1) ps

theorem createdEntries_cons (maxMsg i : Nat) (n m : String)
    (ps : List (String × String)) :
    createdEntries maxMsg i ((n, m) :: ps) =
      (n, i, (handlePut (newQueueImpl maxMsg) m).1) ::
        createdEntries maxMsg (i + 1) ps := rfl

theorem createdEntries_length (maxMsg : Nat) (ps : List (String × String)) :
    ∀ i, (createdEntries maxMsg i ps).length = ps.length := by
  induction ps with
  | nil => intro i; rfl
  | cons p ps ih =>
    intro i
    obtain ⟨n, m⟩ := p
    show (createdEntries maxMsg (i + 1) ps).length + 1 = ps.length + 1
    rw [ih]

theorem lookupQueue_createdEntries_not_mem (maxMsg : Nat)
    (ps : List (String × String)) :
    ∀ (i : Nat) (name : String), name ∉ ps.map Prod.fst →
    lookupQueue (createdEntries maxMsg i ps) name = none := by
  induction ps with
  | nil => intro i name h; rfl
  | cons p ps ih =>
    intro i name h
    obtain ⟨n, m⟩ := p
    simp only [List.map_cons, List.mem_cons, not_or] at h
    rw [createdEntries_cons, lookupQueue_cons, if_neg (fun hh => h.1 hh.symm)]
    exact ih (i + 1) name h.2

theorem lookupQueue_createdEntries_mem (maxMsg : Nat)
    (ps : List (String × String)) :
    ∀ (i : Nat) (n0 m0 : String), (n0, m0) ∈ ps → (ps.map Prod.fst).Nodup →
    ∃ qid, lookupQueue (createdEntries maxMsg i ps) n0 =
      some (qid, (handlePut (newQueueImpl maxMsg) m0).1) := by
  induction ps with
  | nil => intro i n0 m0 h; cases h
  | cons p ps ih =>
    intro i n0 m0 hmem hnd
    obtain ⟨n, m⟩ := p
    rw [List.map_cons, List.nodup_cons] at hnd
    rcases List.mem_cons.mp hmem with heq | htail
    · obtain ⟨h1, h2⟩ := Prod.mk.injEq .. |>.mp heq
      subst h1
      subst h2
      refine ⟨i, ?_⟩
      rw [createdEntries_cons, lookupQueue_cons, if_pos rfl]
    · have hn0mem : n0 ∈ ps.map Prod.fst := List.mem_map.mpr ⟨(n0, m0), htail, rfl⟩
      have hne : ¬ n = n0 := fun hh => hnd.1 (by rw [hh]; exact hn0mem)
      obtain ⟨qid, hq⟩ := ih (i + 1) n0 m0 htail hnd.2
      refine ⟨qid, ?_⟩
      rw [createdEntries_cons, lookupQueue_cons, if_neg hne]
      exact hq

theorem lookupQueue_append_none (l1 l2 : List (String × Nat × QueueImpl))
    (name : String) (h : lookupQueue l1 name = none) :
    lookupQueue (l1 ++ l2) name = lookupQueue l2 name := by
  induction l1 with
  | nil => rfl
  | cons p rest ih =>
    obtain ⟨n, pe⟩ := p
    rw [lookupQueue_cons] at h
    show lookupQueue ((n, pe) :: (rest ++ l2)) name = _
    rw [lookupQueue_cons]
    by_cases hp : n = name
    · rw [if_pos hp] at h; cases h
    · rw [if_neg hp] at h ⊢
      exact ih h

theorem runMPuts_create (ps : List (String × String)) : ∀ (s : ManagerState),
    (∀ p ∈ ps, lookupQueue s.queues p.1 = none) →
    (ps.map Prod.fst).Nodup →
    s.queues.length + ps.length ≤ s.config.MaxQueueNum →
    1 ≤ s.config.MaxMessageNumPerQueue →
    runMPuts s ps =
      ({ s with
          queues := s.queues ++
            createdEntries s.config.MaxMessageNumPerQueue s.nextId ps,
          nextId := s.nextId + ps.length },
       ps.map (fun _ => none)) := by
  induction ps with
  | nil =>
    intro s h1 h2 h3 h4
    show (s, []) = _
    rw [show createdEntries s.config.MaxMessageNumPerQueue s.nextId [] = [] from rfl,
      List.append_nil]
    rfl
  | cons p ps ih =>
    intro s h1 h2 h3 h4
    obtain ⟨n, m⟩ := p
    have hln : lookupQueue s.queues n = none := h1 (n, m) (List.mem_cons_self _ _)
    have hlen : ¬ s.queues.length ≥ s.config.MaxQueueNum := by
      simp only [List.length_cons] at h3
      omega
    rw [List.map_cons, List.nodup_cons] at h2
    show ((runMPuts (managerPut s n m).1 ps).1,
          (managerPut s n m).2 :: (runMPuts (managerPut s n m).1 ps).2) = _
    rw [managerPut_none_create s n m hln hlen,
      handlePut_fresh s.config.MaxMessageNumPerQueue m h4]
    have hih := ih
      { s with
        queues := s.queues ++
          [(n, s.nextId,
            { newQueueImpl s.config.MaxMessageNumPerQueue with messages := [m] })],
        nextId := s.nextId + 1 }
      (fun p hp => by
        show lookupQueue (s.queues ++ [_]) p.1 = none
        rw [lookupQueue_append_none s.queues _ p.1 (h1 p (List.mem_cons_of_mem _ hp)),
          lookupQueue_cons,
          if_neg (fun hh => h2.1 (by rw [hh]; exact List.mem_map.mpr ⟨p, hp, rfl⟩))]
        rfl)
      h2.2
      (by
        show (s.queues ++ [_]).length + ps.length ≤ s.config.MaxQueueNum
        rw [List.length_append, List.length_singleton]
        simp only [List.length_cons] at h3
        omega)
      h4
    rw [hih]
    simp only [createdEntries_cons, List.map_cons, List.length_cons,
      List.append_assoc, List.singleton_append,
      handlePut_fresh s.config.MaxMessageNumPerQueue m h4]
    rw [show s.nextId + 1 + ps.length = s.nextId + (ps.length + 1) from by omega]

/-- C4: starting from an empty registry (with per-queue capacity at least
1 so each creating `Put` is accepted), `Put`s to `MaxQueueNum` distinct
names all succeed and create their queues; a `Put` to a further distinct
name returns `TooManyItems` and changes nothing; and every previously
created queue stays fully usable afterward: `Get` on it returns the
message that created it, and (when the per-queue capacity allows a second
message) another `Put` to it is accepted — the cap is checked only on the
creation path, never against an existing name. -/
theorem queue_count_cap (cfg : QueueManagerConfig) (ps : List (String × String))
    (freshName freshMsg n0 m0 m2 : String)
    (hnd : (ps.map Prod.fst).Nodup)
    (hlen : ps.length = cfg.MaxQueueNum)
    (hmax : 1 ≤ cfg.MaxMessageNumPerQueue)
    (hfresh : freshName ∉ ps.map Prod.fst)
    (hmem : (n0, m0) ∈ ps) :
    (runMPuts (newQueueManager cfg) ps).2 = ps.map (fun _ => none) ∧
    managerPut (runMPuts (newQueueManager cfg) ps).1 freshName freshMsg =
      ((runMPuts (newQueueManager cfg) ps).1, some QErr.tooManyItems) ∧
    (managerGet (runMPuts (newQueueManager cfg) ps).1 n0).2 = (m0, none) ∧
    (2 ≤ cfg.MaxMessageNumPerQueue →
      (managerPut (runMPuts (newQueueManager cfg) ps).1 n0 m2).2 = none) := by
  have hrun := runMPuts_create ps (newQueueManager cfg)
    (fun p hp => rfl) hnd
    (by show 0 + ps.length ≤ cfg.MaxQueueNum; omega) hmax
  have hS : (runMPuts (newQueueManager cfg) ps).1 =
      { config := cfg,
        queues := createdEntries cfg.MaxMessageNumPerQueue 0 ps,
        nextId := ps.length, nextWid := 0 } := by
    rw [hrun]
    simp [newQueueManager]
  obtain ⟨qid0, hq0⟩ :=
    lookupQueue_createdEntries_mem cfg.MaxMessageNumPerQueue ps 0 n0 m0 hmem hnd
  have hE : (handlePut (newQueueImpl cfg.MaxMessageNumPerQueue) m0).1 =
      { newQueueImpl cfg.MaxMessageNumPerQueue with messages := [m0] } := by
    rw [handlePut_fresh _ _ hmax]
  refine ⟨by rw [hrun], ?_, ?_, ?_⟩
  · rw [hS]
    refine managerPut_none_reject _ freshName freshMsg ?_ ?_
    · exact lookupQueue_createdEntries_not_mem cfg.MaxMessageNumPerQueue ps 0 freshName hfresh
    · show (createdEntries cfg.MaxMessageNumPerQueue 0 ps).length ≥ cfg.MaxQueueNum
      rw [createdEntries_length]
      omega
  · rw [hS]
    rw [managerGet_some _ n0 qid0
      (handlePut (newQueueImpl cfg.MaxMessageNumPerQueue) m0).1 hq0]
    show ((queueGetSeq (handlePut (newQueueImpl cfg.MaxMessageNumPerQueue) m0).1 0).2.1,
          (queueGetSeq (handlePut (newQueueImpl cfg.MaxMessageNumPerQueue) m0).1 0).2.2) = _
    rw [Prod.mk.eta, hE, queueGetSeq_match _ 0 m0 [] rfl rfl]
  · intro h2max
    rw [hS]
    rw [managerPut_some _ n0 m2 qid0
      (handlePut (newQueueImpl cfg.MaxMessageNumPerQueue) m0).1 hq0]
    show (handlePut (handlePut (newQueueImpl cfg.MaxMessageNumPerQueue) m0).1 m2).2 = none
    rw [hE]
    unfold handlePut
    rw [if_neg (by
      show ¬ ({ newQueueImpl cfg.MaxMessageNumPerQueue with
        messages := [m0] }).messages.length ≥ cfg.MaxMessageNumPerQueue
      simp
      omega)]

/-- C4 witness: `cfg = ⟨2, 2⟩`, names `"a"`, `"b"`, extra name `"c"`. -/
theorem queue_count_cap_witness :
    (runMPuts (newQueueManager ⟨2, 2⟩) [("a", "1"), ("b", "2")]).2 =
      [("a", "1"), ("b", "2")].map (fun _ => none) ∧
    managerPut (runMPuts (newQueueManager ⟨2, 2⟩) [("a", "1"), ("b", "2")]).1 "c" "z" =
      ((runMPuts (newQueueManager ⟨2, 2⟩) [("a", "1"), ("b", "2")]).1,
        some QErr.tooManyItems) ∧
    (managerGet (runMPuts (newQueueManager ⟨2, 2⟩) [("a", "1"), ("b", "2")]).1 "a").2 =
      ("1", none) ∧
    (2 ≤ QueueManagerConfig.MaxMessageNumPerQueue ⟨2, 2⟩ →
      (managerPut (runMPuts (newQueueManager ⟨2, 2⟩) [("a", "1"), ("b", "2")]).1
        "a" "x").2 = none) :=
  queue_count_cap ⟨2, 2⟩ [("a", "1"), ("b", "2")] "c" "z" "a" "1" "x"
    (by decide) (by decide) (by decide) (by decide) (by decide)

end SimpleBroker
